import Mathlib

/-!
Shallow embedding of the voluptuous schema validator (src/voluptuous.py).

Python values are modelled by the inductive `Value` (ints, booleans, strings,
lists, dicts-as-association-lists).  Python 2 dictionaries are unordered; the
association-list order models the order in which `iteritems()` yields pairs.

A schema node (`Sch`) is, as in the source, either a literal scalar (an int,
string or boolean literal), a type token, a callable, a dict of
(key-schema, value-schema) alternatives, or a list of alternative schemas.

The recursive engine `Schema.validate` / `validate_dict` / `validate_list` /
`validate_scalar` is embedded as a fuel-indexed evaluator `validateF` (built
with `Nat.rec`, hence executable and reducible by `rfl`); the two matcher
loops are standalone structurally recursive functions parameterised by the
recursive evaluator `V`.  The fuel `schFuel s` strictly exceeds the
recursion depth, which descends into strictly smaller schema components at
every level, so the out-of-fuel branch is unreachable (theorem
`validateF_fuel_stable` certifies this: any two sufficient fuels agree).
-/

/-- A Python data value: int, bool, str, list, or dict (as an association
list in iteration order). -/
inductive Value where
  | int (n : Int)
  | bool (b : Bool)
  | str (s : String)
  | list (xs : List Value)
  | dict (pairs : List (Value × Value))

/-- The payload of a raised `Invalid` exception: message and path. -/
structure Invalid where
  msg : String
  path : List Value

/-- Outcome of running the engine: a value, a raised `Invalid`, or a raised
`SchemaError`. -/
inductive Res where
  | ok (v : Value)
  | inv (e : Invalid)
  | schemaErr (m : String)

/-- Outcome of calling a Python validator function on a value: a returned
value, a raised `Invalid`, a raised `ValueError`, or a raised `SchemaError`
(the latter propagates uncaught through the engine). -/
inductive FnRes where
  | ok (v : Value)
  | invalid (msg : String) (path : List Value)
  | valueError
  | schemaError (m : String)

/-- The type tokens the embedding models (`int`, `str`, `bool`, `object`).
In the source's dispatch, `int`, `str` and `object` are members of the
type tuple on line 159, while `bool` is not a member but is `callable`,
so all four reach `validate_scalar`. -/
inductive PType where
  | int
  | str
  | bool
  | obj

/-- A schema node, mirroring the Python value shapes a schema tree is built
from. -/
inductive Sch where
  | lint (n : Int)
  | lstr (s : String)
  | lbool (b : Bool)
  | stype (t : PType)
  | sfn (f : Value → FnRes)
  | sdict (pairs : List (Sch × Sch))
  | slist (elems : List Sch)

mutual

/-- Fuel bound for the engine: strictly larger than the fuel bound of every
schema component at every nesting level, and at least 1. -/
def schFuel : Sch → Nat
  | .sdict pairs => pairsFuel pairs + 1
  | .slist es => elemsFuel es + 1
  | _ => 1

/-- Fuel bound of a dict schema's (key, value) alternatives. -/
def pairsFuel : List (Sch × Sch) → Nat
  | [] => 1
  | (k, v) :: rest => schFuel k + schFuel v + pairsFuel rest + 1

/-- Fuel bound of a list schema's alternatives. -/
def elemsFuel : List Sch → Nat
  | [] => 1
  | s :: rest => schFuel s + elemsFuel rest + 1

end

/-- Python `isinstance(data, t)` for the modelled type tokens.  `bool` is a
subclass of `int` in Python, so a boolean is an instance of `int`. -/
def isinst (d : Value) (t : PType) : Bool :=
  match d, t with
  | .int _, .int => true
  | .bool _, .int => true
  | .bool _, .bool => true
  | .str _, .str => true
  | _, .obj => true
  | _, _ => false

/-- `t.__name__` for the modelled type tokens. -/
def typeName (t : PType) : String :=
  match t with
  | .int => "int"
  | .str => "str"
  | .bool => "bool"
  | .obj => "object"

/-- Python `==` on dictionary keys.  Data keys are hashable scalars; numeric
cross-type equality (`True == 1`) is modelled.  Containers are unhashable in
Python and can never be dictionary keys, so they are never compared here. -/
def keyEq (a b : Value) : Bool :=
  match a, b with
  | .int n, .int m => n == m
  | .int n, .bool c => n == (if c then 1 else 0)
  | .bool c, .int m => (if c then (1 : Int) else 0) == m
  | .bool c, .bool c' => c == c'
  | .str s, .str t => s == t
  | _, _ => false

/-- Python dict assignment `out[new_key] = v`: overwrite the value of an
equal existing key (keeping the original key object, as CPython does), else
append the new pair. -/
def dictUpsert : List (Value × Value) → Value → Value → List (Value × Value)
  | [], k, v => [(k, v)]
  | (k', v') :: rest, k, v =>
    if keyEq k' k then (k', v) :: rest else (k', v') :: dictUpsert rest k v

/-- Elementwise list equality with components compared by `E`. -/
def eqListWith (E : Sch → Value → Bool) : List Sch → List Value → Bool
  | [], [] => true
  | s :: ss, x :: xs => E s x && eqListWith E ss xs
  | _, _ => false

/-- Pairwise dict equality with components compared by `E`. -/
def eqPairsWith (E : Sch → Value → Bool) :
    List (Sch × Sch) → List (Value × Value) → Bool
  | [], [] => true
  | (k, v) :: ps, (dk, dv) :: ds => E k dk && E v dv && eqPairsWith E ps ds
  | _, _ => false

/-- One unfolding step of Python `==` between a schema node and a data value
(`data != schema` on line 337), the recursion on components abstracted as
`E`.  A type token or a function object never equals a data value.  Dict
comparison is modelled pairwise in association-list order; no theorem below
exercises container literals in scalar position. -/
def schEqValStep (E : Sch → Value → Bool) : Sch → Value → Bool
  | .lint n, .int m => n == m
  | .lint n, .bool c => n == (if c then 1 else 0)
  | .lstr s, .str t => s == t
  | .lbool c, .bool c' => c == c'
  | .lbool c, .int m => (if c then (1 : Int) else 0) == m
  | .slist es, .list xs => eqListWith E es xs
  | .sdict ps, .dict items => eqPairsWith E ps items
  | _, _ => false

/-- Fuel-indexed schema-value equality; the fuel bounds the nesting depth. -/
def schEqValF : Nat → Sch → Value → Bool :=
  fun n => Nat.rec (motive := fun _ => Sch → Value → Bool)
    (fun _ _ => false)
    (fun _ E => schEqValStep E) n

/-- Python `==` between a schema node and a data value.  `schFuel s` strictly
exceeds the nesting depth of `s`, so the fuel never runs out. -/
def schEqVal (s : Sch) (d : Value) : Bool := schEqValF (schFuel s) s d

/-- `Schema.validate_scalar` (lines 302-339): a type token performs an
`isinstance` check only; a callable is invoked, its `ValueError` becomes
`Invalid('not a valid value')`, and its own `Invalid` is re-raised with the
current path prefixed to the error's path; a literal requires equality. -/
def validateScalar (p : List Value) (s : Sch) (d : Value) : Res :=
  match s with
  | .stype t => if isinst d t then .ok d else .inv ⟨"expected " ++ typeName t, p⟩
  | .sfn f =>
    match f d with
    | .ok v => .ok v
    | .valueError => .inv ⟨"not a valid value", p⟩
    | .invalid m ep => .inv ⟨m, p ++ ep⟩
    | .schemaError m => .schemaErr m
  | s => if schEqVal s d then .ok d else .inv ⟨"not a valid value", p⟩

/-- `if not error or len(e.path) > len(error.path): error = e` (line 239):
the ranked remembered key error prefers the strictly longer path; ties keep
the earlier one. -/
def rankUpd (rem : Option (String × Invalid)) (e : Invalid) : Invalid :=
  match rem with
  | none => e
  | some (_, best) => if best.path.length < e.path.length then e else best

/-- Result of the inner alternatives loop of `validate_dict` for one data
key: a committed match, an immediately raised error, or exhaustion of all
alternatives.  `rem` packs the two loop variables `invalid` (the retagged
message, set by every shallow key failure, so it holds the last one) and
`error` (the ranked remembered key error). -/
inductive DAlts where
  | dmatched (nk nv : Value) (rem : Option (String × Invalid))
  | draised (r : Res)
  | dexhausted (rem : Option (String × Invalid))

/-- The inner `for skey, svalue in schema.iteritems()` loop of
`validate_dict` (lines 233-251).  A key failure deeper than the key's path
is re-raised at once; a shallow key failure is remembered and the next
alternative is tried; once a key matches, a value failure is re-raised at
once — deeper untouched, at key depth retagged " for dictionary value" —
and is never retried against other alternatives. -/
def dictAlts (V : List Value → Sch → Value → Res) (kp : List Value)
    (alts : List (Sch × Sch)) (key dval : Value)
    (rem : Option (String × Invalid)) : DAlts :=
  match alts with
  | [] => .dexhausted rem
  | (sk, sv) :: rest =>
    match V kp sk key with
    | .schemaErr m => .draised (.schemaErr m)
    | .inv e =>
      if kp.length < e.path.length then .draised (.inv e)
      else dictAlts V kp rest key dval
        (some (e.msg ++ " for dictionary key", rankUpd rem e))
    | .ok nk =>
      match V kp sv dval with
      | .ok nv => .dmatched nk nv rem
      | .inv e =>
        if kp.length < e.path.length then .draised (.inv e)
        else .draised (.inv ⟨e.msg ++ " for dictionary value", e.path⟩)
      | .schemaErr m => .draised (.schemaErr m)

/-- The outer `for key, value in data.iteritems()` loop of `validate_dict`
(lines 228-258).  `rem` persists across data keys, as `invalid`/`error` do
in the source.  On exhaustion with a remembered failure, the ranked error is
re-raised if strictly deeper than one level below `p`, else the retagged
last key-failure message is raised at the key's path; with no remembered
failure the source's `if invalid:` is false and the key is silently skipped
(unreachable for a non-empty schema). -/
def dictItems (V : List Value → Sch → Value → Res) (p : List Value)
    (pairs : List (Sch × Sch)) (items : List (Value × Value))
    (out : List (Value × Value)) (rem : Option (String × Invalid)) : Res :=
  match items with
  | [] => .ok (.dict out)
  | (k, dv) :: rest =>
    match dictAlts V (p ++ [k]) pairs k dv rem with
    | .draised r => r
    | .dmatched nk nv rem' => dictItems V p pairs rest (dictUpsert out nk nv) rem'
    | .dexhausted rem' =>
      match rem' with
      | some (im, best) =>
        if p.length + 1 < best.path.length then .inv best
        else .inv ⟨im, p ++ [k]⟩
      | none => dictItems V p pairs rest out rem'

/-- Result of the inner alternatives loop of `validate_list` for one data
element; `inval` is the loop variable `invalid` (the last shallow failure). -/
inductive LAlts where
  | lmatched (v : Value) (inval : Option Invalid)
  | lraised (r : Res)
  | lexhausted (inval : Option Invalid)

/-- The inner `for s in schema` loop of `validate_list` (lines 287-294): a
failure deeper than the element's path is re-raised at once, a shallower one
is remembered (last one kept), the first success wins. -/
def listAlts (V : List Value → Sch → Value → Res) (ip : List Value)
    (alts : List Sch) (x : Value) (inval : Option Invalid) : LAlts :=
  match alts with
  | [] => .lexhausted inval
  | s :: rest =>
    match V ip s x with
    | .ok v => .lmatched v inval
    | .schemaErr m => .lraised (.schemaErr m)
    | .inv e =>
      if ip.length < e.path.length then .lraised (.inv e)
      else listAlts V ip rest x (some e)

/-- The outer `for i, value in enumerate(data)` loop of `validate_list`
(lines 285-299).  On exhaustion the remembered failure is re-raised if
strictly deeper than the element's path, else a generic "invalid list value"
is raised at the element's path.  Exhaustion with no remembered failure
would crash the source (`invalid.path` on `None`); it is unreachable for a
non-empty schema and modelled as a distinguished non-`Invalid` outcome. -/
def listItems (V : List Value → Sch → Value → Res) (p : List Value)
    (alts : List Sch) (items : List Value) (out : List Value)
    (inval : Option Invalid) (i : Nat) : Res :=
  match items with
  | [] => .ok (.list out)
  | x :: rest =>
    match listAlts V (p ++ [Value.int (Int.ofNat i)]) alts x inval with
    | .lmatched v inval' => listItems V p alts rest (out ++ [v]) inval' (i + 1)
    | .lraised r => r
    | .lexhausted inval' =>
      match inval' with
      | some e =>
        if (p ++ [Value.int (Int.ofNat i)]).length < e.path.length then .inv e
        else .inv ⟨"invalid list value", p ++ [Value.int (Int.ofNat i)]⟩
      | none => .schemaErr ("remembered failure missing (unreachable: Python would raise AttributeError)")

/-- `Schema.validate_dict` (lines 165-258): non-dicts fail "expected a
dictionary"; an empty schema dict accepts any data dict unchanged; otherwise
the matching loops run with fresh `out` and empty remembered state. -/
def validateDict (V : List Value → Sch → Value → Res) (p : List Value)
    (pairs : List (Sch × Sch)) (d : Value) : Res :=
  match d with
  | .dict items =>
    match pairs with
    | [] => .ok d
    | _ => dictItems V p pairs items [] none
  | _ => .inv ⟨"expected a dictionary", p⟩

/-- `Schema.validate_list` (lines 260-300): non-lists fail "expected a
list"; an empty schema list accepts any data list unchanged; otherwise the
matching loops run. -/
def validateList (V : List Value → Sch → Value → Res) (p : List Value)
    (alts : List Sch) (d : Value) : Res :=
  match d with
  | .list xs =>
    match alts with
    | [] => .ok d
    | _ => listItems V p alts xs [] none 0
  | _ => .inv ⟨"expected a list", p⟩

/-- One step of `Schema.validate` (lines 151-163): dicts go to the dict
matcher, lists to the list matcher; an `int`/`str` literal's type is in the
tuple on line 159, a type token is either in that tuple or callable, and a
function is callable, so all reach `validate_scalar`.  A boolean literal's
type `bool` is not in the tuple (tuple membership tests `==`, and `bool`
is a different class from `int`) and `True`/`False` are not callable, so a
boolean literal raises `SchemaError`. -/
def validateStep (V : List Value → Sch → Value → Res) (p : List Value)
    (s : Sch) (d : Value) : Res :=
  match s with
  | .sdict pairs => validateDict V p pairs d
  | .slist alts => validateList V p alts d
  | .lbool _ => .schemaErr ("unsupported schema data type 'bool'")
  | s => validateScalar p s d

/-- The fuel-indexed recursive engine; the zero-fuel branch is unreachable
whenever the fuel exceeds the schema's size. -/
def validateF : Nat → List Value → Sch → Value → Res :=
  fun n => Nat.rec (motive := fun _ => List Value → Sch → Value → Res)
    (fun _ _ _ => .schemaErr ("recursion fuel exhausted (unreachable: fuel exceeds schema size)"))
    (fun _ V => validateStep V) n

/-- `Schema.validate` (line 151): the engine run with sufficient fuel
(every recursive call descends into a strictly smaller schema component,
whose `schFuel` is strictly smaller). -/
def validate (p : List Value) (s : Sch) (d : Value) : Res :=
  validateF (schFuel s + 1) p s d

/-- `Schema.__call__` (line 148): validate data at the root path. -/
def schemaApply (s : Sch) (d : Value) : Res := validate [] s d

/-- The `coerce` combinator (lines 373-384): apply the conversion; a
`ValueError` from it (modelled by `none`) becomes `Invalid` with the
caller's message or "expected `<typename>`", at the empty path. -/
def coerce (conv : Value → Option Value) (name : String) (m : Option String) :
    Value → FnRes :=
  fun v =>
    match conv v with
    | some r => .ok r
    | none => .invalid (m.getD ("expected " ++ name)) []

/-- The `msg` combinator (lines 342-370): run the compiled wrapped schema on
the value; re-raise a failure whose path is deeper than one level untouched,
else raise the override message (with an empty path, as `Invalid(msg)`
carries no path). -/
def msg (sch : Sch) (m : String) : Value → FnRes :=
  fun v =>
    match validate [] sch v with
    | .ok r => .ok r
    | .inv e => if 1 < e.path.length then .invalid e.msg e.path else .invalid m []
    | .schemaErr s' => .schemaError s'

/-- The pipeline loop of the `all` combinator (lines 502-505): each stage is
run through `Schema.validate_scalar` at the root path, its output feeding
the next stage's input; the first failure aborts the loop. -/
def allGo (vs : List Sch) (v : Value) : Res :=
  match vs with
  | [] => .ok v
  | s :: rest =>
    match validateScalar [] s v with
    | .ok v' => allGo rest v'
    | .inv e => .inv e
    | .schemaErr m => .schemaErr m

/-- The `all` combinator (lines 489-509): pipe the value through the
stages; a stage's `Invalid` is caught and re-raised as `Invalid` with the
caller's message or the failing stage's own message, at the empty path. -/
def all (vs : List Sch) (m : Option String) : Value → FnRes :=
  fun v =>
    match allGo vs v with
    | .ok v' => .ok v'
    | .inv e => .invalid (m.getD e.msg) []
    | .schemaErr s' => .schemaError s'

/-- Decimal digit accumulation for `pyInt`. -/
def digitsVal : List Char → Nat → Option Nat
  | [], acc => some acc
  | c :: rest, acc =>
    if c.isDigit then digitsVal rest (acc * 10 + (c.toNat - 48)) else none

/-- Python `int(v)`: ints unchanged, booleans as 0/1, strings parsed as an
optionally signed decimal literal (`ValueError`, modelled by `none`, on
anything else; surrounding whitespace, accepted by Python, is not
modelled).  `int` of a container raises `TypeError` in Python — a crash
outside `coerce`'s `except ValueError` — and is not exercised by any
theorem. -/
def pyInt (v : Value) : Option Value :=
  match v with
  | .int n => some (.int n)
  | .bool b => some (.int (if b then 1 else 0))
  | .str s =>
    match s.toList with
    | [] => none
    | '-' :: rest =>
      match rest with
      | [] => none
      | _ => (digitsVal rest 0).map (fun n => .int (-(Int.ofNat n)))
    | '+' :: rest =>
      match rest with
      | [] => none
      | _ => (digitsVal rest 0).map (fun n => .int (Int.ofNat n))
    | cs => (digitsVal cs 0).map (fun n => .int (Int.ofNat n))
  | _ => none

/-- Python `str(v)` for scalars (it never raises).  Container reprs are not
modelled (no theorem exercises them). -/
def pyStr (v : Value) : Option Value :=
  some (match v with
  | .str s => .str s
  | .int n => .str (toString n)
  | .bool b => .str (if b then ("True") else ("False"))
  | .list _ => .str ("")
  | .dict _ => .str (""))

/-- ASCII uppercase of one character (`str.upper` acts per character). -/
def upperChar (c : Char) : Char :=
  if c.isLower then Char.ofNat (c.toNat - 32) else c

/-- ASCII uppercase of a string, modelling Python `s.upper()`. -/
def upperStr (s : String) : String := String.mk (s.data.map upperChar)

/-- The validator function `lambda v: v.upper()`: uppercase a string.  A
non-string has no `upper` method in Python (an `AttributeError` crash);
modelled as a failure and never exercised by any theorem. -/
def pyUpper : Value → FnRes :=
  fun v =>
    match v with
    | .str s => .ok (.str (upperStr s))
    | _ => .valueError

/-- Every error in `rem` (the map matcher's remembered state) has path
length at most `n`. -/
def remBound (rem : Option (String × Invalid)) (n : Nat) : Prop :=
  ∀ m b, rem = some (m, b) → b.path.length ≤ n

/-- The remembered list-matcher failure, if any, has path length at most
`n`. -/
def invBound (inval : Option Invalid) (n : Nat) : Prop :=
  ∀ e, inval = some e → e.path.length ≤ n

/-- Every error in `rem` has a path extending `p`. -/
def remExtends (rem : Option (String × Invalid)) (p : List Value) : Prop :=
  ∀ m b, rem = some (m, b) → p <+: b.path

/-- The remembered list-matcher failure, if any, has a path extending
`p`. -/
def invExtends (inval : Option Invalid) (p : List Value) : Prop :=
  ∀ e, inval = some e → p <+: e.path

/-- The raised error or remembered state of a dict alternatives-loop result
all have paths extending `p`. -/
def daltsExtends (r : DAlts) (p : List Value) : Prop :=
  match r with
  | .draised (Res.inv e) => p <+: e.path
  | .dmatched _ _ rem' => remExtends rem' p
  | .dexhausted rem' => remExtends rem' p
  | _ => True

/-- The raised error or remembered state of a list alternatives-loop result
all have paths extending `p`. -/
def laltsExtends (r : LAlts) (p : List Value) : Prop :=
  match r with
  | .lraised (Res.inv e) => p <+: e.path
  | .lmatched _ inval' => invExtends inval' p
  | .lexhausted inval' => invExtends inval' p
  | _ => True

/-- The remembered state of a dict alternatives-loop result is bounded by
`n`. -/
def daltsBound (r : DAlts) (n : Nat) : Prop :=
  match r with
  | .dmatched _ _ rem' => remBound rem' n
  | .dexhausted rem' => remBound rem' n
  | _ => True

/-- The remembered state of a list alternatives-loop result is bounded by
`n`. -/
def laltsBound (r : LAlts) (n : Nat) : Prop :=
  match r with
  | .lmatched _ inval' => invBound inval' n
  | .lexhausted inval' => invBound inval' n
  | _ => True


/-- Any `Invalid` raised by `validate_scalar` carries a path extending the
path argument: type, conversion and literal failures are raised at exactly
the current path, and a callable's own error has the current path prefixed
to its path. -/
theorem validateScalar_inv_path (p : List Value) (s : Sch) (d : Value) (e : Invalid)
    (h : validateScalar p s d = Res.inv e) : p <+: e.path := by
  cases s <;> simp only [validateScalar] at h <;> split at h <;>
    first
      | exact Res.noConfusion h
      | (injection h with h2; subst h2;
         first
           | exact List.prefix_rfl
           | exact List.prefix_append _ _)

/-- Errors raised or remembered by the map matcher's inner alternatives loop
carry paths extending the enclosing path `p`, provided the evaluator and the
incoming remembered state do. -/
theorem dictAlts_paths (V : List Value → Sch → Value → Res) (p kp : List Value)
    (k dv : Value) (hpk : p <+: kp)
    (HV : ∀ s' v' e', V kp s' v' = Res.inv e' → kp <+: e'.path) :
    ∀ (alts : List (Sch × Sch)) (rem : Option (String × Invalid)),
      remExtends rem p → daltsExtends (dictAlts V kp alts k dv rem) p := by
  intro alts
  induction alts with
  | nil =>
    intro rem hrem
    simpa [dictAlts, daltsExtends] using hrem
  | cons hd rest ih =>
    intro rem hrem
    obtain ⟨sk, sv⟩ := hd
    cases hk : V kp sk k with
    | schemaErr m => simp [dictAlts, hk, daltsExtends]
    | inv e0 =>
      by_cases hdeep : kp.length < e0.path.length
      · have hp : p <+: e0.path := hpk.trans (HV _ _ _ hk)
        simp [dictAlts, hk, hdeep, daltsExtends, hp]
      · have hrem' : remExtends
            (some (e0.msg ++ " for dictionary key", rankUpd rem e0)) p := by
          intro m b hb
          cases hb
          cases rem with
          | none => exact hpk.trans (HV _ _ _ hk)
          | some pr =>
            obtain ⟨m0, best⟩ := pr
            by_cases h2 : best.path.length < e0.path.length
            · simpa [rankUpd, h2] using hpk.trans (HV _ _ _ hk)
            · simpa [rankUpd, h2] using hrem m0 best rfl
        have hres := ih (some (e0.msg ++ " for dictionary key", rankUpd rem e0)) hrem'
        simpa [dictAlts, hk, hdeep] using hres
    | ok nk =>
      cases hv : V kp sv dv with
      | ok nv => simpa [dictAlts, hk, hv, daltsExtends] using hrem
      | inv e0 =>
        have hp : p <+: e0.path := hpk.trans (HV _ _ _ hv)
        by_cases hdeep : kp.length < e0.path.length
        · simp [dictAlts, hk, hv, hdeep, daltsExtends, hp]
        · simpa [dictAlts, hk, hv, hdeep, daltsExtends] using hp
      | schemaErr m => simp [dictAlts, hk, hv, daltsExtends]

/-- Any `Invalid` raised by the map matcher's outer loop carries a path
extending the enclosing path `p`. -/
theorem dictItems_paths (V : List Value → Sch → Value → Res) (p : List Value)
    (HV : ∀ q s' v' e', V q s' v' = Res.inv e' → q <+: e'.path) :
    ∀ (items : List (Value × Value)) (pairs : List (Sch × Sch))
      (out : List (Value × Value)) (rem : Option (String × Invalid)),
      remExtends rem p →
      ∀ e, dictItems V p pairs items out rem = Res.inv e → p <+: e.path := by
  intro items
  induction items with
  | nil =>
    intro pairs out rem hrem e h
    simp [dictItems] at h
  | cons hd rest ih =>
    intro pairs out rem hrem e h
    obtain ⟨k, dv⟩ := hd
    have hada := dictAlts_paths V p (p ++ [k]) k dv (List.prefix_append p [k])
      (fun s' v' e' => HV (p ++ [k]) s' v' e') pairs rem hrem
    cases hda : dictAlts V (p ++ [k]) pairs k dv rem with
    | draised r =>
      rw [hda] at hada
      simp only [dictItems, hda] at h
      rw [h] at hada
      simpa [daltsExtends] using hada
    | dmatched nk nv rem' =>
      rw [hda] at hada
      simp only [daltsExtends] at hada
      simp only [dictItems, hda] at h
      exact ih pairs (dictUpsert out nk nv) rem' hada e h
    | dexhausted rem' =>
      rw [hda] at hada
      simp only [daltsExtends] at hada
      cases rem' with
      | none =>
        simp only [dictItems, hda] at h
        exact ih pairs out none (by intro m b hb; cases hb) e h
      | some pr =>
        obtain ⟨im, best⟩ := pr
        simp only [dictItems, hda] at h
        by_cases hdeep : p.length + 1 < best.path.length
        · rw [if_pos hdeep] at h
          injection h with h2
          subst h2
          exact hada im best rfl
        · rw [if_neg hdeep] at h
          injection h with h2
          subst h2
          exact List.prefix_append _ _

/-- Errors raised or remembered by the list matcher's inner alternatives
loop carry paths extending the enclosing path `p`. -/
theorem listAlts_paths (V : List Value → Sch → Value → Res) (p ip : List Value)
    (x : Value) (hpi : p <+: ip)
    (HV : ∀ s' v' e', V ip s' v' = Res.inv e' → ip <+: e'.path) :
    ∀ (alts : List Sch) (inval : Option Invalid),
      invExtends inval p → laltsExtends (listAlts V ip alts x inval) p := by
  intro alts
  induction alts with
  | nil =>
    intro inval hinv
    simpa [listAlts, laltsExtends] using hinv
  | cons s rest ih =>
    intro inval hinv
    cases hk : V ip s x with
    | ok v => simpa [listAlts, hk, laltsExtends] using hinv
    | schemaErr m => simp [listAlts, hk, laltsExtends]
    | inv e0 =>
      have hp : p <+: e0.path := hpi.trans (HV _ _ _ hk)
      by_cases hdeep : ip.length < e0.path.length
      · simp [listAlts, hk, hdeep, laltsExtends, hp]
      · have hinv' : invExtends (some e0) p := by
          intro e' he'
          cases he'
          exact hp
        have hres := ih (some e0) hinv'
        simpa [listAlts, hk, hdeep] using hres

/-- Any `Invalid` raised by the list matcher's outer loop carries a path
extending the enclosing path `p`. -/
theorem listItems_paths (V : List Value → Sch → Value → Res) (p : List Value)
    (HV : ∀ q s' v' e', V q s' v' = Res.inv e' → q <+: e'.path) :
    ∀ (items : List Value) (alts : List Sch) (out : List Value)
      (inval : Option Invalid) (i : Nat),
      invExtends inval p →
      ∀ e, listItems V p alts items out inval i = Res.inv e → p <+: e.path := by
  intro items
  induction items with
  | nil =>
    intro alts out inval i hinv e h
    simp [listItems] at h
  | cons x rest ih =>
    intro alts out inval i hinv e h
    have hala := listAlts_paths V p (p ++ [Value.int (Int.ofNat i)]) x
      (List.prefix_append p [Value.int (Int.ofNat i)])
      (fun s' v' e' => HV (p ++ [Value.int (Int.ofNat i)]) s' v' e') alts inval hinv
    cases hla : listAlts V (p ++ [Value.int (Int.ofNat i)]) alts x inval with
    | lmatched v inval' =>
      rw [hla] at hala
      simp only [laltsExtends] at hala
      simp only [listItems, hla] at h
      exact ih alts (out ++ [v]) inval' (i + 1) hala e h
    | lraised r =>
      rw [hla] at hala
      simp only [listItems, hla] at h
      rw [h] at hala
      simpa [laltsExtends] using hala
    | lexhausted inval' =>
      rw [hla] at hala
      simp only [laltsExtends] at hala
      cases inval' with
      | none =>
        simp only [listItems, hla] at h
        exact Res.noConfusion h
      | some e0 =>
        simp only [listItems, hla] at h
        by_cases hdeep : (p ++ [Value.int (Int.ofNat i)]).length < e0.path.length
        · rw [if_pos hdeep] at h
          injection h with h2
          subst h2
          exact hala e0 rfl
        · rw [if_neg hdeep] at h
          injection h with h2
          subst h2
          exact List.prefix_append _ _

/-- At every fuel, any `Invalid` raised by the engine carries a path
extending the path argument. -/
theorem validateF_paths :
    ∀ (n : Nat) (p : List Value) (s : Sch) (d : Value) (e : Invalid),
      validateF n p s d = Res.inv e → p <+: e.path := by
  intro n
  induction n with
  | zero =>
    intro p s d e h
    simp [validateF] at h
  | succ n ih =>
    intro p s d e h
    have h' : validateStep (validateF n) p s d = Res.inv e := h
    cases s with
    | lint m => exact validateScalar_inv_path p (Sch.lint m) d e h'
    | lstr s' => exact validateScalar_inv_path p (Sch.lstr s') d e h'
    | stype t => exact validateScalar_inv_path p (Sch.stype t) d e h'
    | sfn f => exact validateScalar_inv_path p (Sch.sfn f) d e h'
    | lbool b => simp [validateStep] at h'
    | sdict pairs =>
      cases d with
      | dict items =>
        cases pairs with
        | nil => simp [validateStep, validateDict] at h'
        | cons hd tl =>
          have h2 : dictItems (validateF n) p (hd :: tl) items [] none = Res.inv e := h'
          exact dictItems_paths (validateF n) p (fun q s' v' e' hq => ih q s' v' e' hq)
            items (hd :: tl) [] none (by intro m b hb; cases hb) e h2
      | int m =>
        have h3 : Res.inv ⟨"expected a dictionary", p⟩ = Res.inv e := h'
        injection h3 with h4
        subst h4
        exact List.prefix_rfl
      | bool b =>
        have h3 : Res.inv ⟨"expected a dictionary", p⟩ = Res.inv e := h'
        injection h3 with h4
        subst h4
        exact List.prefix_rfl
      | str s' =>
        have h3 : Res.inv ⟨"expected a dictionary", p⟩ = Res.inv e := h'
        injection h3 with h4
        subst h4
        exact List.prefix_rfl
      | list xs =>
        have h3 : Res.inv ⟨"expected a dictionary", p⟩ = Res.inv e := h'
        injection h3 with h4
        subst h4
        exact List.prefix_rfl
    | slist es =>
      cases d with
      | list xs =>
        cases es with
        | nil => simp [validateStep, validateList] at h'
        | cons hd tl =>
          have h2 : listItems (validateF n) p (hd :: tl) xs [] none 0 = Res.inv e := h'
          exact listItems_paths (validateF n) p (fun q s' v' e' hq => ih q s' v' e' hq)
            xs (hd :: tl) [] none 0 (by intro e' he'; cases he') e h2
      | int m =>
        have h3 : Res.inv ⟨"expected a list", p⟩ = Res.inv e := h'
        injection h3 with h4
        subst h4
        exact List.prefix_rfl
      | bool b =>
        have h3 : Res.inv ⟨"expected a list", p⟩ = Res.inv e := h'
        injection h3 with h4
        subst h4
        exact List.prefix_rfl
      | str s' =>
        have h3 : Res.inv ⟨"expected a list", p⟩ = Res.inv e := h'
        injection h3 with h4
        subst h4
        exact List.prefix_rfl
      | dict items =>
        have h3 : Res.inv ⟨"expected a list", p⟩ = Res.inv e := h'
        injection h3 with h4
        subst h4
        exact List.prefix_rfl

/-- Claim C5: every data validation error raised by `validate p s d` carries
a path of which `p` is a prefix; segments are never lost or reordered as the
error propagates upward, including through function schema nodes, whose own
errors are re-raised with the current path prefixed to their path. -/
theorem claim5_path_prefix_invariant (p : List Value) (s : Sch) (d : Value)
    (e : Invalid) (h : validate p s d = Res.inv e) : p <+: e.path :=
  validateF_paths _ p s d e h

/-- Witness for C5 at a concrete input: a failing nested validation's error
path extends the path argument. -/
theorem claim5_path_prefix_invariant_witness :
    validate [Value.str ("k")] (.stype .int) (.str ("v")) =
      Res.inv ⟨"expected int", [Value.str ("k")]⟩ ∧
    [Value.str ("k")] <+: (Invalid.mk ("expected int") [Value.str ("k")]).path :=
  ⟨rfl, claim5_path_prefix_invariant [Value.str ("k")] (.stype .int) (.str ("v"))
    ⟨"expected int", [Value.str ("k")]⟩ rfl⟩

/-- Every error remembered by the map matcher's inner alternatives loop has
a path no longer than the key's path: a deeper failure is re-raised at once
(lines 237-238), so only shallow failures are remembered. -/
theorem dictAlts_bound (V : List Value → Sch → Value → Res) (kp : List Value)
    (k dv : Value) :
    ∀ (alts : List (Sch × Sch)) (rem : Option (String × Invalid)),
      remBound rem kp.length → daltsBound (dictAlts V kp alts k dv rem) kp.length := by
  intro alts
  induction alts with
  | nil =>
    intro rem hrem
    simpa [dictAlts, daltsBound] using hrem
  | cons hd rest ih =>
    intro rem hrem
    obtain ⟨sk, sv⟩ := hd
    cases hk : V kp sk k with
    | schemaErr m => simp [dictAlts, hk, daltsBound]
    | inv e0 =>
      by_cases hdeep : kp.length < e0.path.length
      · simp [dictAlts, hk, hdeep, daltsBound]
      · have hrem' : remBound
            (some (e0.msg ++ " for dictionary key", rankUpd rem e0)) kp.length := by
          intro m b hb
          cases hb
          cases rem with
          | none => simpa [rankUpd] using Nat.le_of_not_lt hdeep
          | some pr =>
            obtain ⟨m0, best⟩ := pr
            by_cases h2 : best.path.length < e0.path.length
            · simpa [rankUpd, h2] using Nat.le_of_not_lt hdeep
            · simpa [rankUpd, h2] using hrem m0 best rfl
        have hres := ih (some (e0.msg ++ " for dictionary key", rankUpd rem e0)) hrem'
        simpa [dictAlts, hk, hdeep] using hres
    | ok nk =>
      cases hv : V kp sv dv with
      | ok nv => simpa [dictAlts, hk, hv, daltsBound] using hrem
      | inv e0 =>
        by_cases hdeep : kp.length < e0.path.length
        · simp [dictAlts, hk, hv, hdeep, daltsBound]
        · simp [dictAlts, hk, hv, hdeep, daltsBound]
      | schemaErr m => simp [dictAlts, hk, hv, daltsBound]

/-- Every error remembered by the list matcher's inner alternatives loop has
a path no longer than the element's path (lines 292-294). -/
theorem listAlts_bound (V : List Value → Sch → Value → Res) (ip : List Value)
    (x : Value) :
    ∀ (alts : List Sch) (inval : Option Invalid),
      invBound inval ip.length → laltsBound (listAlts V ip alts x inval) ip.length := by
  intro alts
  induction alts with
  | nil =>
    intro inval hinv
    simpa [listAlts, laltsBound] using hinv
  | cons s rest ih =>
    intro inval hinv
    cases hk : V ip s x with
    | ok v => simpa [listAlts, hk, laltsBound] using hinv
    | schemaErr m => simp [listAlts, hk, laltsBound]
    | inv e0 =>
      by_cases hdeep : ip.length < e0.path.length
      · simp [listAlts, hk, hdeep, laltsBound]
      · have hinv' : invBound (some e0) ip.length := by
          intro e' he'
          cases he'
          exact Nat.le_of_not_lt hdeep
        have hres := ih (some e0) hinv'
        simpa [listAlts, hk, hdeep] using hres

/-- Starting the map matcher's inner loop with a non-empty remembered state,
exhaustion always ends with a non-empty remembered state. -/
theorem dictAlts_some_exhaust (V : List Value → Sch → Value → Res)
    (kp : List Value) (k dv : Value) :
    ∀ (alts : List (Sch × Sch)) (x : String × Invalid)
      (rem' : Option (String × Invalid)),
      dictAlts V kp alts k dv (some x) = DAlts.dexhausted rem' →
      ∃ y, rem' = some y := by
  intro alts
  induction alts with
  | nil =>
    intro x rem' h
    simp only [dictAlts] at h
    injection h with h2
    exact ⟨x, h2.symm⟩
  | cons hd rest ih =>
    intro x rem' h
    obtain ⟨sk, sv⟩ := hd
    cases hk : V kp sk k with
    | schemaErr m => simp [dictAlts, hk] at h
    | ok nk =>
      cases hv : V kp sv dv with
      | ok nv => simp [dictAlts, hk, hv] at h
      | schemaErr m => simp [dictAlts, hk, hv] at h
      | inv e1 =>
        simp only [dictAlts, hk, hv] at h
        split at h <;> exact DAlts.noConfusion h
    | inv e0 =>
      by_cases hdeep : kp.length < e0.path.length
      · simp [dictAlts, hk, hdeep] at h
      · exact ih (e0.msg ++ " for dictionary key", rankUpd (some x) e0) rem'
          (by simpa [dictAlts, hk, hdeep] using h)

/-- With at least one alternative, exhaustion of the map matcher's inner
loop always carries a remembered failure (so the source's `if invalid:` is
true and the retagged error is raised). -/
theorem dictAlts_cons_exhaust_some (V : List Value → Sch → Value → Res)
    (kp : List Value) (k dv : Value) (sk sv : Sch) (rest : List (Sch × Sch))
    (rem rem' : Option (String × Invalid))
    (h : dictAlts V kp ((sk, sv) :: rest) k dv rem = DAlts.dexhausted rem') :
    ∃ y, rem' = some y := by
  cases hk : V kp sk k with
  | schemaErr m => simp [dictAlts, hk] at h
  | ok nk =>
    cases hv : V kp sv dv with
    | ok nv => simp [dictAlts, hk, hv] at h
    | schemaErr m => simp [dictAlts, hk, hv] at h
    | inv e1 =>
      simp only [dictAlts, hk, hv] at h
      split at h <;> exact DAlts.noConfusion h
  | inv e0 =>
    by_cases hdeep : kp.length < e0.path.length
    · simp [dictAlts, hk, hdeep] at h
    · exact dictAlts_some_exhaust V kp k dv rest _ rem'
        (by simpa [dictAlts, hk, hdeep] using h)

/-- Starting the list matcher's inner loop with a remembered failure,
exhaustion always ends with a remembered failure. -/
theorem listAlts_some_exhaust (V : List Value → Sch → Value → Res)
    (ip : List Value) (x : Value) :
    ∀ (alts : List Sch) (e0 : Invalid) (inval' : Option Invalid),
      listAlts V ip alts x (some e0) = LAlts.lexhausted inval' →
      ∃ y, inval' = some y := by
  intro alts
  induction alts with
  | nil =>
    intro e0 inval' h
    simp only [listAlts] at h
    injection h with h2
    exact ⟨e0, h2.symm⟩
  | cons s rest ih =>
    intro e0 inval' h
    cases hk : V ip s x with
    | ok v => simp [listAlts, hk] at h
    | schemaErr m => simp [listAlts, hk] at h
    | inv e1 =>
      by_cases hdeep : ip.length < e1.path.length
      · simp [listAlts, hk, hdeep] at h
      · exact ih e1 inval' (by simpa [listAlts, hk, hdeep] using h)

/-- With at least one alternative, exhaustion of the list matcher's inner
loop always carries a remembered failure (the source's `invalid` is not
`None`). -/
theorem listAlts_cons_exhaust_some (V : List Value → Sch → Value → Res)
    (ip : List Value) (x : Value) (s : Sch) (rest : List Sch)
    (inval inval' : Option Invalid)
    (h : listAlts V ip (s :: rest) x inval = LAlts.lexhausted inval') :
    ∃ y, inval' = some y := by
  cases hk : V ip s x with
  | ok v => simp [listAlts, hk] at h
  | schemaErr m => simp [listAlts, hk] at h
  | inv e1 =>
    by_cases hdeep : ip.length < e1.path.length
    · simp [listAlts, hk, hdeep] at h
    · exact listAlts_some_exhaust V ip x rest e1 inval'
        (by simpa [listAlts, hk, hdeep] using h)

/-- When the map matcher's inner loop exhausts all alternatives with a
remembered failure, the outer loop raises the retagged message at the key's
path: the remembered error's path is bounded by the key path's length, so
the `len(error.path) > len(path) + 1` branch (line 254) is never taken. -/
theorem dictItems_exhaust_raise (V : List Value → Sch → Value → Res)
    (p : List Value) (pairs : List (Sch × Sch)) (k dv : Value)
    (items : List (Value × Value)) (out : List (Value × Value))
    (rem : Option (String × Invalid)) (im : String) (best : Invalid)
    (hrem : remBound rem (p.length + 1))
    (hda : dictAlts V (p ++ [k]) pairs k dv rem = DAlts.dexhausted (some (im, best))) :
    dictItems V p pairs ((k, dv) :: items) out rem = Res.inv ⟨im, p ++ [k]⟩ := by
  have hb := dictAlts_bound V (p ++ [k]) k dv pairs rem (by simpa using hrem)
  rw [hda] at hb
  simp only [daltsBound] at hb
  have hbb : best.path.length ≤ p.length + 1 := by simpa using hb im best rfl
  simp only [dictItems, hda]
  rw [if_neg (Nat.not_lt.mpr hbb)]

/-- When the list matcher's inner loop exhausts all alternatives with a
remembered failure, the outer loop raises the generic "invalid list value"
at the element's path: the remembered failure's path is bounded by the
element path's length, so the `len(invalid.path) > len(index_path)` branch
(line 296) is never taken. -/
theorem listItems_exhaust_raise (V : List Value → Sch → Value → Res)
    (p : List Value) (alts : List Sch) (x : Value) (items : List Value)
    (out : List Value) (inval : Option Invalid) (i : Nat) (e : Invalid)
    (hinv : invBound inval (p.length + 1))
    (hla : listAlts V (p ++ [Value.int (Int.ofNat i)]) alts x inval =
      LAlts.lexhausted (some e)) :
    listItems V p alts (x :: items) out inval i =
      Res.inv ⟨"invalid list value", p ++ [Value.int (Int.ofNat i)]⟩ := by
  have hb := listAlts_bound V (p ++ [Value.int (Int.ofNat i)]) x alts inval
    (by simpa using hinv)
  rw [hla] at hb
  simp only [laltsBound] at hb
  have hbb : e.path.length ≤ p.length + 1 := by simpa using hb e rfl
  simp only [listItems, hla]
  rw [if_neg (by simpa using Nat.not_lt.mpr hbb)]

/-- The remembered message at exhaustion is the LAST attempted alternative's
key-failure message with " for dictionary key" appended: `invalid` is
overwritten by every shallow key failure (line 241), so the final value
comes from the last alternative tried. -/
theorem dictAlts_exhausted_last (V : List Value → Sch → Value → Res)
    (kp : List Value) (k dv : Value) :
    ∀ (alts : List (Sch × Sch)) (sk sv : Sch)
      (rem rem' : Option (String × Invalid)),
      alts.getLast? = some (sk, sv) →
      dictAlts V kp alts k dv rem = DAlts.dexhausted rem' →
      ∃ e best, V kp sk k = Res.inv e ∧ e.path.length ≤ kp.length ∧
        rem' = some (e.msg ++ " for dictionary key", best) := by
  intro alts
  induction alts with
  | nil =>
    intro sk sv rem rem' hlast h
    simp at hlast
  | cons hd rest ih =>
    intro sk sv rem rem' hlast h
    obtain ⟨sk0, sv0⟩ := hd
    cases rest with
    | nil =>
      have hsk : sk0 = sk ∧ sv0 = sv := by
        have h0 := hlast
        simp [List.getLast?] at h0
        exact h0
      obtain ⟨h1, h2⟩ := hsk
      subst h1
      subst h2
      cases hk : V kp sk0 k with
      | schemaErr m => simp [dictAlts, hk] at h
      | ok nk =>
        cases hv : V kp sv0 dv with
        | ok nv => simp [dictAlts, hk, hv] at h
        | schemaErr m => simp [dictAlts, hk, hv] at h
        | inv e1 =>
          simp only [dictAlts, hk, hv] at h
          split at h <;> exact DAlts.noConfusion h
      | inv e0 =>
        by_cases hdeep : kp.length < e0.path.length
        · simp [dictAlts, hk, hdeep] at h
        · have h2 : DAlts.dexhausted
              (some (e0.msg ++ " for dictionary key", rankUpd rem e0)) =
              DAlts.dexhausted rem' := by
            simpa [dictAlts, hk, hdeep] using h
          injection h2 with h3
          exact ⟨e0, rankUpd rem e0, rfl, Nat.le_of_not_lt hdeep, h3.symm⟩
    | cons hd2 rest2 =>
      have hlast2 : (hd2 :: rest2).getLast? = some (sk, sv) := by
        simpa [List.getLast?_cons_cons] using hlast
      cases hk : V kp sk0 k with
      | schemaErr m => simp [dictAlts, hk] at h
      | ok nk =>
        cases hv : V kp sv0 dv with
        | ok nv => simp [dictAlts, hk, hv] at h
        | schemaErr m => simp [dictAlts, hk, hv] at h
        | inv e1 =>
          simp only [dictAlts, hk, hv] at h
          split at h <;> exact DAlts.noConfusion h
      | inv e0 =>
        by_cases hdeep : kp.length < e0.path.length
        · simp [dictAlts, hk, hdeep] at h
        · exact ih sk sv (some (e0.msg ++ " for dictionary key", rankUpd rem e0)) rem'
            hlast2 (by simpa [dictAlts, hk, hdeep] using h)

/-- Claim C1 (confirmed): validating `{"x": 5}` against the schema
`{"x": str, str: int}` fails at path `["x"]` with a message tagged
" for dictionary value": once the `"x"` alternative's key matches, the
paired value failure is raised immediately and never retried, although the
`str`-type alternative's key would also have matched and that alternative
alone would accept the data.  (Python 2 dict iteration order is
unspecified; the association list models an iteration order in which the
literal-key alternative is yielded first, the order the claim describes.) -/
theorem claim1_commit_on_key :
    validate [] (Sch.sdict [(.lstr ("x"), .stype .str), (.stype .str, .stype .int)])
      (Value.dict [(Value.str ("x"), Value.int 5)]) =
      Res.inv ⟨"expected str for dictionary value", [Value.str ("x")]⟩ ∧
    validate [Value.str ("x")] (.stype .str) (Value.str ("x")) =
      Res.ok (Value.str ("x")) ∧
    validate [] (Sch.sdict [(.stype .str, .stype .int)])
      (Value.dict [(Value.str ("x"), Value.int 5)]) =
      Res.ok (Value.dict [(Value.str ("x"), Value.int 5)]) :=
  ⟨rfl, rfl, rfl⟩

/-- Counterexample to C2 as stated: with the schema
`{int: str, "a": str}` and data `{"x": 1}`, both alternatives' keys fail at
the same depth; the ranked remembered error (longest path, ties keep the
first) is the `int` alternative's "expected int", yet the raised message is
the LAST alternative's "not a valid value for dictionary key", not
"expected int for dictionary key". -/
theorem claim2_ranked_key_counterexample :
    validate [] (Sch.sdict [(.stype .int, .stype .str), (.lstr ("a"), .stype .str)])
      (Value.dict [(Value.str ("x"), Value.int 1)]) =
      Res.inv ⟨"not a valid value for dictionary key", [Value.str ("x")]⟩ ∧
    dictAlts (validateF 1) [Value.str ("x")]
      [(.stype .int, .stype .str), (.lstr ("a"), .stype .str)]
      (Value.str ("x")) (Value.int 1) none =
      DAlts.dexhausted (some ("not a valid value for dictionary key",
        ⟨"expected int", [Value.str ("x")]⟩)) ∧
    "not a valid value for dictionary key" ≠ "expected int" ++ " for dictionary key" :=
  ⟨rfl, rfl, by decide⟩

/-- Claim C2 (amended): when a data key exhausts all schema alternatives
(each key failure no deeper than the key's path), the matcher raises, at
the data key's path, the key-failure message of the LAST attempted
alternative with " for dictionary key" appended; the separately tracked
best-ranked error (longer path preferred, ties keep the first) is consulted
only for the never-taken strictly-deeper re-raise branch. -/
theorem claim2_last_key_error (V : List Value → Sch → Value → Res)
    (p : List Value) (pairs : List (Sch × Sch)) (k dv : Value)
    (items : List (Value × Value)) (out : List (Value × Value))
    (rem rem' : Option (String × Invalid)) (sk sv : Sch)
    (hlast : pairs.getLast? = some (sk, sv))
    (hrem : remBound rem (p.length + 1))
    (hda : dictAlts V (p ++ [k]) pairs k dv rem = DAlts.dexhausted rem') :
    ∃ e, V (p ++ [k]) sk k = Res.inv e ∧
      dictItems V p pairs ((k, dv) :: items) out rem =
        Res.inv ⟨e.msg ++ " for dictionary key", p ++ [k]⟩ := by
  obtain ⟨e, best, hke, hlen, hsome⟩ :=
    dictAlts_exhausted_last V (p ++ [k]) k dv pairs sk sv rem rem' hlast hda
  subst hsome
  exact ⟨e, hke, dictItems_exhaust_raise V p pairs k dv items out rem _ best hrem hda⟩

/-- Witness for the amended C2 at the counterexample's input: the raised
message is the last alternative's failure, retagged, at the key's path. -/
theorem claim2_last_key_error_witness :
    dictItems (validateF 1) [] [(.stype .int, .stype .str), (.lstr ("a"), .stype .str)]
      [(Value.str ("x"), Value.int 1)] [] none =
      Res.inv ⟨"not a valid value for dictionary key", [] ++ [Value.str ("x")]⟩ := by
  obtain ⟨e, hke, hres⟩ := claim2_last_key_error (validateF 1) []
    [(.stype .int, .stype .str), (.lstr ("a"), .stype .str)]
    (Value.str ("x")) (Value.int 1) [] [] none
    (some ("not a valid value for dictionary key",
      ⟨"expected int", [Value.str ("x")]⟩))
    (.lstr ("a")) (.stype .str) (by rfl) (fun m b hb => by cases hb) (by rfl)
  have he : Res.inv ⟨"not a valid value", [] ++ [Value.str ("x")]⟩ = Res.inv e := by
    rw [← hke]
    rfl
  injection he with he2
  rw [← he2] at hres
  exact hres

/-- Claim C10 (confirmed): every error remembered by either backtracking
loop has a path no longer than the current key/element path (deeper errors
are re-raised immediately), so the fallback branches re-raising a
remembered error deeper than the key/element path are never taken: on
exhaustion the map matcher always raises the retagged " for dictionary key"
error and the list matcher always raises the generic "invalid list value"
error, both at the current key/element path; and exhaustion of a non-empty
alternatives list always carries a remembered failure. -/
theorem claim10_fallback_unreachable :
    (∀ (V : List Value → Sch → Value → Res) (kp : List Value) (k dv : Value)
       (alts : List (Sch × Sch)) (rem : Option (String × Invalid)),
       remBound rem kp.length → daltsBound (dictAlts V kp alts k dv rem) kp.length) ∧
    (∀ (V : List Value → Sch → Value → Res) (kp : List Value) (k dv : Value)
       (sk sv : Sch) (rest : List (Sch × Sch)) (rem rem' : Option (String × Invalid)),
       dictAlts V kp ((sk, sv) :: rest) k dv rem = DAlts.dexhausted rem' →
       ∃ y, rem' = some y) ∧
    (∀ (V : List Value → Sch → Value → Res) (p : List Value)
       (pairs : List (Sch × Sch)) (k dv : Value) (items : List (Value × Value))
       (out : List (Value × Value)) (rem : Option (String × Invalid))
       (im : String) (best : Invalid),
       remBound rem (p.length + 1) →
       dictAlts V (p ++ [k]) pairs k dv rem = DAlts.dexhausted (some (im, best)) →
       dictItems V p pairs ((k, dv) :: items) out rem = Res.inv ⟨im, p ++ [k]⟩) ∧
    (∀ (V : List Value → Sch → Value → Res) (ip : List Value) (x : Value)
       (alts : List Sch) (inval : Option Invalid),
       invBound inval ip.length → laltsBound (listAlts V ip alts x inval) ip.length) ∧
    (∀ (V : List Value → Sch → Value → Res) (ip : List Value) (x : Value)
       (s : Sch) (rest : List Sch) (inval inval' : Option Invalid),
       listAlts V ip (s :: rest) x inval = LAlts.lexhausted inval' →
       ∃ y, inval' = some y) ∧
    (∀ (V : List Value → Sch → Value → Res) (p : List Value) (alts : List Sch)
       (x : Value) (items : List Value) (out : List Value)
       (inval : Option Invalid) (i : Nat) (e : Invalid),
       invBound inval (p.length + 1) →
       listAlts V (p ++ [Value.int (Int.ofNat i)]) alts x inval =
         LAlts.lexhausted (some e) →
       listItems V p alts (x :: items) out inval i =
         Res.inv ⟨"invalid list value", p ++ [Value.int (Int.ofNat i)]⟩) :=
  ⟨fun V kp k dv alts rem h => dictAlts_bound V kp k dv alts rem h,
   fun V kp k dv sk sv rest rem rem' h =>
     dictAlts_cons_exhaust_some V kp k dv sk sv rest rem rem' h,
   fun V p pairs k dv items out rem im best h1 h2 =>
     dictItems_exhaust_raise V p pairs k dv items out rem im best h1 h2,
   fun V ip x alts inval h => listAlts_bound V ip x alts inval h,
   fun V ip x s rest inval inval' h =>
     listAlts_cons_exhaust_some V ip x s rest inval inval' h,
   fun V p alts x items out inval i e h1 h2 =>
     listItems_exhaust_raise V p alts x items out inval i e h1 h2⟩

/-- Witness for C10 at a concrete input: on exhaustion the map matcher
raises the retagged error at the key's path. -/
theorem claim10_fallback_unreachable_witness :
    dictItems (validateF 1) [] [(.stype .int, .stype .str)]
      [(Value.str ("x"), Value.int 1)] [] none =
      Res.inv ⟨"expected int for dictionary key", [] ++ [Value.str ("x")]⟩ :=
  claim10_fallback_unreachable.2.2.1 (validateF 1) [] [(.stype .int, .stype .str)]
    (Value.str ("x")) (Value.int 1) [] [] none
    ("expected int for dictionary key") ⟨"expected int", [Value.str ("x")]⟩
    (fun m b hb => by cases hb) (by rfl)

/-- Claim C3 (confirmed): validating `[{"a": "y"}]` against `[{"a": int}]`
raises the nested failure at path `[0, "a"]` (tagged by the dict matcher's
value rule), not the generic "invalid list value" at path `[0]`: the nested
error's path is strictly deeper than the element's path, so the list
matcher re-raises it immediately. -/
theorem claim3_deepest_error_wins_list :
    validate [] (Sch.slist [Sch.sdict [(.lstr ("a"), .stype .int)]])
      (Value.list [Value.dict [(Value.str ("a"), Value.str ("y"))]]) =
      Res.inv ⟨"expected int for dictionary value", [Value.int 0, Value.str ("a")]⟩ :=
  rfl

/-- Claim C4 (confirmed): an empty mapping schema returns any data dict
unchanged and an empty sequence schema returns any data list unchanged,
while non-mapping (resp. non-list) data still fails the container type
check at the current path. -/
theorem claim4_wildcard_empty :
    (∀ (p : List Value) (items : List (Value × Value)),
       validate p (Sch.sdict []) (Value.dict items) = Res.ok (Value.dict items)) ∧
    (∀ (p : List Value) (xs : List Value),
       validate p (Sch.slist []) (Value.list xs) = Res.ok (Value.list xs)) ∧
    (∀ (p : List Value) (d : Value), (∀ items, d ≠ Value.dict items) →
       validate p (Sch.sdict []) d = Res.inv ⟨"expected a dictionary", p⟩) ∧
    (∀ (p : List Value) (d : Value), (∀ xs, d ≠ Value.list xs) →
       validate p (Sch.slist []) d = Res.inv ⟨"expected a list", p⟩) := by
  refine ⟨fun p items => rfl, fun p xs => rfl, ?_, ?_⟩
  · intro p d hd
    cases d with
    | dict items => exact absurd rfl (hd items)
    | int n => rfl
    | bool b => rfl
    | str s => rfl
    | list xs => rfl
  · intro p d hd
    cases d with
    | list xs => exact absurd rfl (hd xs)
    | int n => rfl
    | bool b => rfl
    | str s => rfl
    | dict items => rfl

/-- Witness for C4 at concrete inputs. -/
theorem claim4_wildcard_empty_witness :
    validate [] (Sch.sdict []) (Value.dict [(Value.int 1, Value.int 2)]) =
      Res.ok (Value.dict [(Value.int 1, Value.int 2)]) ∧
    validate [] (Sch.slist []) (Value.list [Value.str ("q")]) =
      Res.ok (Value.list [Value.str ("q")]) ∧
    validate [] (Sch.sdict []) (Value.int 3) =
      Res.inv ⟨"expected a dictionary", []⟩ ∧
    validate [] (Sch.slist []) (Value.str ("q")) =
      Res.inv ⟨"expected a list", []⟩ :=
  ⟨claim4_wildcard_empty.1 [] [(Value.int 1, Value.int 2)],
   claim4_wildcard_empty.2.1 [] [Value.str ("q")],
   claim4_wildcard_empty.2.2.1 [] (Value.int 3) (fun items h => Value.noConfusion h),
   claim4_wildcard_empty.2.2.2 [] (Value.str ("q")) (fun xs h => Value.noConfusion h)⟩

/-- Claim C6 (confirmed): when the schema wrapped by `msg` fails with a
path of length at most 1 (a direct child of the wrap point), the raised
error carries the override message (and, as `Invalid(msg)`, an empty path);
when the failure's path is strictly deeper, the error propagates with its
original message and path untouched. -/
theorem claim6_msg_depth (sch : Sch) (m : String) (v : Value) (e : Invalid)
    (h : validate [] sch v = Res.inv e) :
    (e.path.length ≤ 1 → msg sch m v = FnRes.invalid m []) ∧
    (1 < e.path.length → msg sch m v = FnRes.invalid e.msg e.path) := by
  constructor
  · intro hle
    simp only [msg, h]
    rw [if_neg (Nat.not_lt.mpr hle)]
  · intro hgt
    simp only [msg, h]
    rw [if_pos hgt]

/-- Witness for C6: the shallow failure (path `[0]`) is replaced by the
override message; the nested failure (path `[0, 0]`) keeps its message and
path. -/
theorem claim6_msg_depth_witness :
    msg (Sch.slist [.lstr ("one")]) ("friendly") (Value.list [Value.str ("three")]) =
      FnRes.invalid ("friendly") [] ∧
    msg (Sch.slist [Sch.slist [.lstr ("one")]]) ("friendly")
      (Value.list [Value.list [Value.str ("three")]]) =
      FnRes.invalid ("invalid list value") [Value.int 0, Value.int 0] :=
  ⟨(claim6_msg_depth (Sch.slist [.lstr ("one")]) ("friendly")
      (Value.list [Value.str ("three")]) ⟨"invalid list value", [Value.int 0]⟩ rfl).1
      (by decide),
   (claim6_msg_depth (Sch.slist [Sch.slist [.lstr ("one")]]) ("friendly")
      (Value.list [Value.list [Value.str ("three")]])
      ⟨"invalid list value", [Value.int 0, Value.int 0]⟩ rfl).2 (by decide)⟩

/-- Claim C7 (confirmed): `all` pipes the value through the stages in
order, each stage's output feeding the next stage's input (string-coercion
then uppercase over "ab" yields "AB"); the first failing stage aborts the
remaining stages and the raised error carries the caller's message if
given, else the failing stage's own message, with an empty path. -/
theorem claim7_all_pipeline :
    all [.sfn (coerce pyStr ("str") none), .sfn pyUpper] none (Value.str ("ab")) =
      FnRes.ok (Value.str ("AB")) ∧
    (∀ (s1 : Sch) (rest : List Sch) (m : Option String) (v : Value) (e : Invalid),
       validateScalar [] s1 v = Res.inv e →
       all (s1 :: rest) m v = FnRes.invalid (m.getD e.msg) []) ∧
    (∀ (s1 : Sch) (rest : List Sch) (m : Option String) (v v' : Value),
       validateScalar [] s1 v = Res.ok v' →
       all (s1 :: rest) m v = all rest m v') := by
  refine ⟨rfl, ?_, ?_⟩
  · intro s1 rest m v e h
    simp [all, allGo, h]
  · intro s1 rest m v v' h
    simp [all, allGo, h]

/-- Witness for C7: a failing head stage short-circuits with its own
message and empty path; a succeeding head stage feeds its output onward. -/
theorem claim7_all_pipeline_witness :
    all [Sch.stype .int] none (Value.str ("q")) =
      FnRes.invalid ("expected int") [] ∧
    all [Sch.lstr ("10"), .sfn (coerce pyInt ("int") none)] none (Value.str ("10")) =
      all [.sfn (coerce pyInt ("int") none)] none (Value.str ("10")) :=
  ⟨claim7_all_pipeline.2.1 (Sch.stype .int) [] none (Value.str ("q"))
      ⟨"expected int", []⟩ rfl,
   claim7_all_pipeline.2.2 (Sch.lstr ("10")) [.sfn (coerce pyInt ("int") none)]
      none (Value.str ("10")) (Value.str ("10")) rfl⟩

/-- Claim C8 (confirmed): a bare integer type token fails on the string "5"
with "expected int" and never converts a value (a successful type check
returns the input unchanged), whereas the coerce-to-int combinator converts
"5" to the integer 5, and a conversion failure raises "expected int" or the
caller-supplied message. -/
theorem claim8_type_token_not_coercion :
    validate [] (.stype .int) (Value.str ("5")) = Res.inv ⟨"expected int", []⟩ ∧
    coerce pyInt ("int") none (Value.str ("5")) = FnRes.ok (Value.int 5) ∧
    coerce pyInt ("int") none (Value.str ("x")) = FnRes.invalid ("expected int") [] ∧
    coerce pyInt ("int") (some ("custom")) (Value.str ("x")) =
      FnRes.invalid ("custom") [] ∧
    (∀ (p : List Value) (t : PType) (v w : Value),
       validate p (.stype t) v = Res.ok w → w = v) := by
  refine ⟨rfl, rfl, rfl, rfl, ?_⟩
  intro p t v w h
  have h' : validateScalar p (Sch.stype t) v = Res.ok w := h
  by_cases hc : isinst v t
  · simp only [validateScalar, if_pos hc] at h'
    injection h' with h2
    exact h2.symm
  · simp only [validateScalar, if_neg hc] at h'
    exact Res.noConfusion h'

/-- Witness for C8's no-conversion conjunct at a concrete input. -/
theorem claim8_type_token_not_coercion_witness :
    Value.int 7 = Value.int 7 :=
  claim8_type_token_not_coercion.2.2.2.2 [] .int (Value.int 7) (Value.int 7) rfl

/-- Counterexample to C9 as stated: a boolean literal schema is a literal
scalar, yet the dispatch raises `SchemaError` for it (tuple membership on
line 159 tests `==`, and `bool` is a different class from every member;
`True` is not callable), while the scalar matcher itself would accept it. -/
theorem claim9_dispatch_counterexample :
    validate [] (Sch.lbool true) (Value.bool true) =
      Res.schemaErr ("unsupported schema data type 'bool'") ∧
    validateScalar [] (Sch.lbool true) (Value.bool true) = Res.ok (Value.bool true) :=
  ⟨rfl, rfl⟩

/-- Claim C9 (amended): `validate` routes mapping schemas to the map
matcher and sequence schemas to the list matcher; type tokens, int and str
literal scalars, and callables reach the scalar matcher; a boolean literal
— although a literal scalar — is not recognized by the dispatch's type
enumeration and raises the schema-definition error
"unsupported schema data type 'bool'". -/
theorem claim9_dispatch_amended :
    (∀ (p : List Value) (pairs : List (Sch × Sch)) (d : Value),
       validate p (Sch.sdict pairs) d =
         validateDict (validateF (schFuel (Sch.sdict pairs))) p pairs d) ∧
    (∀ (p : List Value) (es : List Sch) (d : Value),
       validate p (Sch.slist es) d =
         validateList (validateF (schFuel (Sch.slist es))) p es d) ∧
    (∀ (p : List Value) (t : PType) (d : Value),
       validate p (Sch.stype t) d = validateScalar p (Sch.stype t) d) ∧
    (∀ (p : List Value) (n : Int) (d : Value),
       validate p (Sch.lint n) d = validateScalar p (Sch.lint n) d) ∧
    (∀ (p : List Value) (s : String) (d : Value),
       validate p (Sch.lstr s) d = validateScalar p (Sch.lstr s) d) ∧
    (∀ (p : List Value) (f : Value → FnRes) (d : Value),
       validate p (Sch.sfn f) d = validateScalar p (Sch.sfn f) d) ∧
    (∀ (p : List Value) (b : Bool) (d : Value),
       validate p (Sch.lbool b) d =
         Res.schemaErr ("unsupported schema data type 'bool'")) := by
  refine ⟨?_, ?_, ?_, ?_, ?_, ?_, ?_⟩ <;> intro _ _ _ <;> rfl

/-- Every schema has positive fuel. -/
theorem schFuel_pos (s : Sch) : 1 ≤ schFuel s := by
  cases s <;> simp [schFuel]

/-- A member of a dict schema's alternatives has fuel bounded by the
alternatives' fuel. -/
theorem pairsFuel_mem_le :
    ∀ (pairs : List (Sch × Sch)) (sk sv : Sch), (sk, sv) ∈ pairs →
      schFuel sk ≤ pairsFuel pairs ∧ schFuel sv ≤ pairsFuel pairs := by
  intro pairs
  induction pairs with
  | nil =>
    intro sk sv h
    simp at h
  | cons hd rest ih =>
    intro sk sv h
    obtain ⟨k0, v0⟩ := hd
    rcases List.mem_cons.mp h with h1 | h2
    · rw [Prod.mk.injEq] at h1
      obtain ⟨ha, hb⟩ := h1
      subst ha
      subst hb
      constructor <;> simp [pairsFuel] <;> omega
    · have hih := ih sk sv h2
      constructor <;> simp [pairsFuel] <;> omega

/-- A member of a list schema's alternatives has fuel bounded by the
alternatives' fuel. -/
theorem elemsFuel_mem_le :
    ∀ (es : List Sch) (s : Sch), s ∈ es → schFuel s ≤ elemsFuel es := by
  intro es
  induction es with
  | nil =>
    intro s h
    simp at h
  | cons hd rest ih =>
    intro s h
    rcases List.mem_cons.mp h with h1 | h2
    · subst h1
      simp [elemsFuel]
      omega
    · have hih := ih s h2
      simp [elemsFuel]
      omega

/-- The map matcher's inner loop only consults the evaluator on the
alternatives' components at the key path, so evaluators agreeing there give
equal results. -/
theorem dictAlts_congr (V1 V2 : List Value → Sch → Value → Res)
    (kp : List Value) (k dv : Value) :
    ∀ (alts : List (Sch × Sch)) (rem : Option (String × Invalid)),
      (∀ sk sv, (sk, sv) ∈ alts →
        (∀ v, V1 kp sk v = V2 kp sk v) ∧ (∀ v, V1 kp sv v = V2 kp sv v)) →
      dictAlts V1 kp alts k dv rem = dictAlts V2 kp alts k dv rem := by
  intro alts
  induction alts with
  | nil => intro rem H; rfl
  | cons hd rest ih =>
    intro rem H
    obtain ⟨sk, sv⟩ := hd
    have hh := H sk sv (List.mem_cons_self _ _)
    have Hrest := fun sk' sv' h' => H sk' sv' (List.mem_cons_of_mem _ h')
    simp only [dictAlts]
    rw [hh.1 k]
    cases h1 : V2 kp sk k with
    | schemaErr m => rfl
    | inv e0 =>
      by_cases hdeep : kp.length < e0.path.length
      · simp [hdeep]
      · simp only [if_neg hdeep]
        exact ih _ Hrest
    | ok nk =>
      rw [hh.2 dv]

/-- The map matcher's outer loop consults the evaluator only through the
inner loop on the alternatives' components. -/
theorem dictItems_congr (V1 V2 : List Value → Sch → Value → Res)
    (p : List Value) (pairs : List (Sch × Sch))
    (H : ∀ sk sv, (sk, sv) ∈ pairs →
      (∀ q v, V1 q sk v = V2 q sk v) ∧ (∀ q v, V1 q sv v = V2 q sv v)) :
    ∀ (items : List (Value × Value)) (out : List (Value × Value))
      (rem : Option (String × Invalid)),
      dictItems V1 p pairs items out rem = dictItems V2 p pairs items out rem := by
  intro items
  induction items with
  | nil => intro out rem; rfl
  | cons hd rest ih =>
    intro out rem
    obtain ⟨k, dv⟩ := hd
    have hcong := dictAlts_congr V1 V2 (p ++ [k]) k dv pairs rem
      (fun sk sv hm =>
        ⟨fun v => (H sk sv hm).1 (p ++ [k]) v, fun v => (H sk sv hm).2 (p ++ [k]) v⟩)
    simp only [dictItems]
    rw [hcong]
    cases h1 : dictAlts V2 (p ++ [k]) pairs k dv rem with
    | draised r => rfl
    | dmatched nk nv rem' => exact ih _ _
    | dexhausted rem' =>
      cases rem' with
      | some pr => rfl
      | none => exact ih _ _

/-- The list matcher's inner loop only consults the evaluator on the
alternatives at the element path. -/
theorem listAlts_congr (V1 V2 : List Value → Sch → Value → Res)
    (ip : List Value) (x : Value) :
    ∀ (alts : List Sch) (inval : Option Invalid),
      (∀ s, s ∈ alts → ∀ v, V1 ip s v = V2 ip s v) →
      listAlts V1 ip alts x inval = listAlts V2 ip alts x inval := by
  intro alts
  induction alts with
  | nil => intro inval H; rfl
  | cons s rest ih =>
    intro inval H
    have hh := H s (List.mem_cons_self _ _)
    have Hrest := fun s' h' => H s' (List.mem_cons_of_mem _ h')
    simp only [listAlts]
    rw [hh x]
    cases h1 : V2 ip s x with
    | ok v => rfl
    | schemaErr m => rfl
    | inv e0 =>
      by_cases hdeep : ip.length < e0.path.length
      · simp [hdeep]
      · simp only [if_neg hdeep]
        exact ih _ Hrest

/-- The list matcher's outer loop consults the evaluator only through the
inner loop on the alternatives. -/
theorem listItems_congr (V1 V2 : List Value → Sch → Value → Res)
    (p : List Value) (alts : List Sch)
    (H : ∀ s, s ∈ alts → ∀ q v, V1 q s v = V2 q s v) :
    ∀ (items : List Value) (out : List Value) (inval : Option Invalid) (i : Nat),
      listItems V1 p alts items out inval i = listItems V2 p alts items out inval i := by
  intro items
  induction items with
  | nil => intro out inval i; rfl
  | cons x rest ih =>
    intro out inval i
    have hcong := listAlts_congr V1 V2 (p ++ [Value.int (Int.ofNat i)]) x alts inval
      (fun s hm v => H s hm (p ++ [Value.int (Int.ofNat i)]) v)
    simp only [listItems]
    rw [hcong]
    cases h1 : listAlts V2 (p ++ [Value.int (Int.ofNat i)]) alts x inval with
    | lmatched v inval' => exact ih _ _ _
    | lraised r => rfl
    | lexhausted inval' => rfl

/-- Fuel adequacy: any two fuels at least the schema's fuel bound give the
same result, so the out-of-fuel branch of `validateF` is unreachable from
`validate` and the fuel embedding is faithful to the source's unbounded
recursion. -/
theorem validateF_fuel_stable :
    ∀ (n m : Nat) (s : Sch) (p : List Value) (d : Value),
      schFuel s ≤ n → schFuel s ≤ m → validateF n p s d = validateF m p s d := by
  intro n
  induction n using Nat.strong_induction_on with
  | _ n IH =>
    intro m s p d hn hm
    cases n with
    | zero =>
      exfalso
      have := schFuel_pos s
      omega
    | succ n' =>
      cases m with
      | zero =>
        exfalso
        have := schFuel_pos s
        omega
      | succ m' =>
        show validateStep (validateF n') p s d = validateStep (validateF m') p s d
        cases s with
        | lint k => rfl
        | lstr k => rfl
        | lbool b => rfl
        | stype t => rfl
        | sfn f => rfl
        | sdict pairs =>
          cases d with
          | dict items =>
            cases pairs with
            | nil => rfl
            | cons hd tl =>
              have hfe : schFuel (Sch.sdict (hd :: tl)) = pairsFuel (hd :: tl) + 1 := by
                simp [schFuel]
              refine dictItems_congr (validateF n') (validateF m') p (hd :: tl) ?_ items [] none
              intro sk sv hm2
              have hb := pairsFuel_mem_le (hd :: tl) sk sv hm2
              constructor
              · intro q v
                exact IH n' (Nat.lt_succ_self n') m' sk q v (by omega) (by omega)
              · intro q v
                exact IH n' (Nat.lt_succ_self n') m' sv q v (by omega) (by omega)
          | int k => rfl
          | bool b => rfl
          | str s' => rfl
          | list xs => rfl
        | slist es =>
          cases d with
          | list xs =>
            cases es with
            | nil => rfl
            | cons hd tl =>
              have hfe : schFuel (Sch.slist (hd :: tl)) = elemsFuel (hd :: tl) + 1 := by
                simp [schFuel]
              refine listItems_congr (validateF n') (validateF m') p (hd :: tl) ?_ xs [] none 0
              intro s' hm2 q v
              have hb := elemsFuel_mem_le (hd :: tl) s' hm2
              exact IH n' (Nat.lt_succ_self n') m' s' q v (by omega) (by omega)
          | int k => rfl
          | bool b => rfl
          | str s' => rfl
          | dict items => rfl
